import Mathlib

/-
Shallow embedding of the ffrotate batch video rotation pipeline.

Sources embedded:
- src/ffrotate.py      : check_ffmpeg, rotate_video, batch_rotate_videos
- src/jlp-rotate.py    : get_video_duration, extract_rotated_frame (the same
  functions appear, with identical bodies, in src/jlp-rotate-pyside.py)

Machine strings are Lean String values; all character-level work is done on
List Char with hand-rolled models of the Python primitives used by the code
(str.split, str membership, os.path.basename, os.path.splitext, os.path.join,
float() restricted to unsigned decimal literals, which is the shape of every
string the embedded code feeds to float()).

External effects are made explicit:
- whether the ffmpeg binary resolves is an input (the result of shutil.which);
- the outcome of each spawned ffmpeg process is part of the per-item input
  data (field ok of VideoInput), since it is decided by the external tool;
- the filesystem is a record of directory names and file names threaded
  through the functions;
- a trace of events records the observable order of operations (progress
  updates, binary checks, process invocations, moves).
-/

/- Boolean check that the first list is a leading segment of the second. -/
def isPre : List Char → List Char → Bool
  | [], _ => true
  | _ :: _, [] => false
  | c :: cs, d :: ds => decide (c = d) && isPre cs ds

/- Boolean check for the Python membership test on strings (sub in s). -/
def containsCA (sep : List Char) : List Char → Bool
  | [] => isPre sep []
  | c :: cs => isPre sep (c :: cs) || containsCA sep cs

/- Python str.split(sep) on character lists, for a nonempty separator.
   Fuel-based so that every claim instance evaluates inside the kernel;
   fuel equal to the length of the list is always sufficient. -/
def pySplitF (sep : List Char) : Nat → List Char → List Char → List (List Char)
  | _, [], acc => [acc.reverse]
  | 0, c :: cs, acc => [acc.reverse ++ c :: cs]
  | fuel + 1, c :: cs, acc =>
    if isPre sep (c :: cs) then
      acc.reverse :: pySplitF sep fuel ((c :: cs).drop sep.length) []
    else
      pySplitF sep fuel cs (c :: acc)

def pySplitCA (sep l : List Char) : List (List Char) :=
  pySplitF sep l.length l []

/- Index of the last occurrence of a character (Python str.rfind). -/
def rfindIdx (c : Char) : List Char → Option Nat
  | [] => none
  | x :: xs =>
    match rfindIdx c xs with
    | some i => some (i + 1)
    | none => if x = c then some 0 else none

/- os.path.basename for POSIX paths: everything after the last slash. -/
def basenameCA (l : List Char) : List Char :=
  match rfindIdx '/' l with
  | none => l
  | some i => l.drop (i + 1)

/- os.path.splitext applied to a bare file name (no directory part):
   split at the last dot, unless every character before it is a dot. -/
def splitextB (l : List Char) : List Char × List Char :=
  match rfindIdx '.' l with
  | none => (l, [])
  | some i =>
    if (l.take i).any (fun c => c != '.') then (l.take i, l.drop i) else (l, [])

/- os.path.join for POSIX paths, two arguments. -/
def pyJoin (a b : String) : String :=
  if b.data.head? = some '/' then b
  else if a.data = [] ∨ a.data.getLast? = some '/' then a ++ b
  else a ++ "/" ++ b

/- ffrotate.py lines 89-91 (same computation at jlp-rotate.py lines 96-98):
   base, ext = os.path.splitext(os.path.basename(input_video))
   output_filename = f-string base_rotated ext. -/
def output_filename (input_video : String) : String :=
  let be := splitextB (basenameCA input_video.data)
  String.mk (be.1 ++ "_rotated".data ++ be.2)

/- ffrotate.py line 91: os.path.join(output_dir, output_filename). -/
def output_path (input_video output_dir : String) : String :=
  pyJoin output_dir (output_filename input_video)

/- Text used for a Python float in an f-string (only reached for the custom
   rotation branch, which no claim inspects). -/
def angleStr : Option Rat → String
  | none => "None"
  | some q => toString q

/- ffrotate.py lines 97-101 (identical at jlp-rotate.py lines 100-104). -/
def rotation_map (rotation : String) : Option String :=
  if rotation = "90" then some "transpose=1"
  else if rotation = "180" then some "transpose=2,transpose=2"
  else if rotation = "270" then some "transpose=2"
  else none

/- ffrotate.py lines 103-106: dictionary lookup for the three fixed modes
   (none models the KeyError on an unknown key), rotate filter otherwise. -/
def filter_option (rotation : String) (custom_angle : Option Rat) : Option String :=
  if rotation ≠ "custom" then rotation_map rotation
  else some ("rotate=" ++ angleStr custom_angle ++ "*(PI/180):bilinear=0")

/- Python float() restricted to unsigned decimal literals: an optional
   integer part, an optional dot, an optional fractional part, at least one
   digit overall.  Other inputs raise ValueError, modelled as none. -/
def digToNat (c : Char) : Nat := c.toNat - 48

def isDigitList (l : List Char) : Bool := l.all Char.isDigit

def parseDigitsAcc : Nat → List Char → Nat
  | acc, [] => acc
  | acc, c :: cs => parseDigitsAcc (10 * acc + digToNat c) cs

def pyFloatCA (l : List Char) : Option Rat :=
  match pySplitCA ['.'] l with
  | [i] =>
    if i ≠ [] ∧ isDigitList i = true then some ((parseDigitsAcc 0 i : Nat) : Rat)
    else none
  | [i, fr] =>
    if (i ≠ [] ∨ fr ≠ []) ∧ isDigitList i = true ∧ isDigitList fr = true then
      some ((parseDigitsAcc 0 i : Rat) + (parseDigitsAcc 0 fr : Rat) / (10 : Rat) ^ fr.length)
    else none
  | _ => none

/- Error taxonomy for the embedded Python code: each constructor stands for
   the exception class the code raises at the corresponding point. -/
inductive PyErr where
  | indexError
  | valueError
  | keyError
  | fileNotFound
  | runtimeError (msg : String)
deriving DecidableEq, Repr

/- jlp-rotate.py lines 46-49: scan stderr lines for the first line containing
   the word Duration. -/
def findDurLine : List (List Char) → Option (List Char)
  | [] => none
  | l :: ls => if containsCA "Duration".data l then some l else findDurLine ls

/- jlp-rotate.py lines 44-54 (get_video_duration, identical at
   jlp-rotate-pyside.py lines 33-42).  The function's only use of the spawned
   process is its stderr text; the model therefore takes the diagnostic
   stream's lines (result.stderr.splitlines()) as input.
   duration_str = line.split(sep Duration colon space)[1].split(comma)[0];
   IndexError if the [1] does not exist; RuntimeError if no line matched or
   the extracted text is empty (falsy); then h, m, s = map(float, ...) and
   h * 3600 + m * 60 + s. -/
def get_video_duration (stderrLines : List (List Char)) : Except PyErr Rat :=
  match findDurLine stderrLines with
  | none => .error (.runtimeError "Could not determine video duration.")
  | some l =>
    match (pySplitCA "Duration: ".data l).get? 1 with
    | none => .error .indexError
    | some part =>
      let ds := (pySplitCA [','] part).headI
      if ds = [] then .error (.runtimeError "Could not determine video duration.")
      else
        match pySplitCA [':'] ds with
        | [hs, ms, ss] =>
          match pyFloatCA hs, pyFloatCA ms, pyFloatCA ss with
          | some h, some m, some s => .ok (h * 3600 + m * 60 + s)
          | _, _, _ => .error .valueError
        | _ => .error .valueError

/- jlp-rotate.py lines 56-91 (extract_rotated_frame), reduced to the data it
   computes before handing off to the external process: the duration probe
   (line 59, uncaught, so a probe failure propagates), the midpoint seek time
   (line 60) and the resolved filter (lines 62-71).  The spawned frame
   extraction itself is external. -/
def extract_rotated_frame (stderrLines : List (List Char)) (rotation : String)
    (custom_angle : Option Rat) : Except PyErr (Rat × String) :=
  match get_video_duration stderrLines with
  | .error e => .error e
  | .ok duration =>
    match filter_option rotation custom_angle with
    | none => .error .keyError
    | some filt => .ok (duration / 2, filt)

/- Filesystem model: the set of existing directories and files, as lists of
   path strings. -/
structure FS where
  dirs : List String
  files : List String
deriving DecidableEq, Repr

def insertF (x : String) (l : List String) : List String :=
  if x ∈ l then l else x :: l

def isdir (fs : FS) (d : String) : Bool := decide (d ∈ fs.dirs)

def addFile (fs : FS) (p : String) : FS := ⟨fs.dirs, insertF p fs.files⟩

/- Slash-separated path components (for relative paths, which is what the
   claims exercise). -/
def components (p : String) : List (List Char) := pySplitCA ['/'] p.data

/- os.path.dirname restricted to relative paths: all components but the
   last, re-joined. -/
def dirname (p : String) : String :=
  String.mk (List.intercalate ['/'] (components p).dropLast)

/- The chain of non-empty leading joins of a path: for a/b/c this is
   a, a/b, a/b/c.  os.makedirs creates exactly these. -/
def pathPrefixes (p : String) : List String :=
  ((List.range (components p).length).map
    (fun k => String.mk (List.intercalate ['/'] ((components p).take (k + 1))))).filter
    (fun s => s != "")

/- ffrotate.py line 94: os.makedirs(output_dir, exist_ok=True) creates the
   directory and every absent intermediate segment. -/
def mkdirs (fs : FS) (d : String) : FS :=
  ⟨(pathPrefixes d).foldl (fun acc p => insertF p acc) fs.dirs, fs.files⟩

/- ffrotate.py line 146: Path(output_dir).mkdir() creates only the final
   segment; an absent parent raises FileNotFoundError.  (The call is guarded
   by the isdir test at line 145, so the already-exists case never reaches
   it in the embedded flow.) -/
def mkdirOne (fs : FS) (d : String) : Except PyErr FS :=
  if dirname d = "" ∨ isdir fs (dirname d) = true then .ok ⟨insertF d fs.dirs, fs.files⟩
  else .error .fileNotFound

/- Observable events, in the order the batch call performs them. -/
inductive Ev where
  | mkOutDir (d : String)
  | mkTmp
  | progressUpd (i total : Nat)
  | checkFfmpeg (found : Bool)
  | invoke (input : String)
  | settle
  | moveFile (src dst : String)
  | rmTmp
deriving DecidableEq, Repr

/- One batch item: the input path, whether the spawned ffmpeg transcode exits
   with status 0, and the decoded stderr text when it does not. -/
structure VideoInput where
  name : String
  ok : Bool
  errMsg : String
deriving DecidableEq, Repr

/- The fresh staging directory produced by tempfile.TemporaryDirectory()
   (ffrotate.py line 150); freshness means the claims run it against
   filesystems with nothing at this name. -/
def tmpD : String := "tmp_stage"

def addTmpDir (fs : FS) : FS := ⟨insertF tmpD fs.dirs, fs.files⟩

def underTmp (p : String) : Bool := isPre (tmpD.data ++ ['/']) p.data

/- Leaving the with-block removes the staging directory and everything
   still inside it. -/
def cleanupTmp (fs : FS) : FS :=
  ⟨fs.dirs.erase tmpD, fs.files.filter (fun p => !(underTmp p))⟩

/- ffrotate.py lines 74-79: shutil.which, value or RuntimeError. -/
def check_ffmpeg (which_ffmpeg : Option String) : Except PyErr String :=
  match which_ffmpeg with
  | some p => .ok p
  | none => .error (.runtimeError "FFmpeg is not installed or not in the system path.")

/- ffrotate.py lines 82-132 (rotate_video): resolve the binary (raises if
   absent), derive the output path, ensure the output directory (makedirs,
   with intermediates), resolve the filter (KeyError on an unknown fixed
   mode), run the process; a non-zero exit is caught and turned into the
   string Error: stderr, a zero exit writes the output file, settles
   (time.sleep) and returns the path.  Result: events, filesystem, and
   either an uncaught exception or the returned string. -/
def rotate_video (which_ffmpeg : Option String) (video : VideoInput) (rotation : String)
    (custom_angle : Option Rat) (output_dir : String) (fs : FS) :
    List Ev × FS × Except PyErr String :=
  match check_ffmpeg which_ffmpeg with
  | .error e => ([.checkFfmpeg false], fs, .error e)
  | .ok _ =>
    let outPath := output_path video.name output_dir
    let fs1 := mkdirs fs output_dir
    match filter_option rotation custom_angle with
    | none => ([.checkFfmpeg true], fs1, .error .keyError)
    | some _ =>
      if video.ok then
        ([.checkFfmpeg true, .invoke video.name, .settle], addFile fs1 outPath, .ok outPath)
      else
        ([.checkFfmpeg true, .invoke video.name], fs1, .ok ("Error: " ++ video.errMsg))

/- ffrotate.py lines 154-160: the enumerate loop.  Before each item's work
   the progress callback is fed i / total; the item's returned string is
   appended whichever branch of the dead if/else runs.  An uncaught
   exception aborts the loop with the state at that point. -/
def runItems (which_ffmpeg : Option String) (total : Nat) (rotation : String)
    (custom_angle : Option Rat) :
    Nat → List VideoInput → FS → List String → List Ev →
    Except (PyErr × FS × List String × List Ev) (FS × List String × List Ev)
  | _, [], fs, outs, tr => .ok (fs, outs, tr)
  | i, v :: vs, fs, outs, tr =>
    match rotate_video which_ffmpeg v rotation custom_angle tmpD fs with
    | (evs, fs1, .error e) => .error (e, fs1, outs, tr ++ .progressUpd i total :: evs)
    | (evs, fs1, .ok res) =>
      runItems which_ffmpeg total rotation custom_angle (i + 1) vs fs1 (outs ++ [res])
        (tr ++ .progressUpd i total :: evs)

/- ffrotate.py lines 161-162: move every recorded entry into the output
   directory.  shutil.move on an entry that is not an existing file (in
   particular on an Error: string) raises FileNotFoundError. -/
def runMoves (output_dir : String) :
    List String → FS → List Ev → Except (FS × List Ev) (FS × List Ev)
  | [], fs, tr => .ok (fs, tr)
  | f :: rest, fs, tr =>
    if f ∈ fs.files then
      let dst := pyJoin output_dir (String.mk (basenameCA f.data))
      runMoves output_dir rest ⟨fs.dirs, insertF dst (fs.files.erase f)⟩
        (tr ++ [.moveFile f dst])
    else .error (fs, tr)

/- How a batch call ends: a returned job-level error string, a normal
   return, or an uncaught exception. -/
inductive BatchRet where
  | jobError (msg : String)
  | done
  | raised (e : PyErr)
deriving DecidableEq, Repr

structure BatchOut where
  ret : BatchRet
  fs : FS
  outcomes : List String
  trace : List Ev
deriving DecidableEq, Repr

/- Python truthiness of the optional numeric angle: None, 0 and 0.0 are
   falsy. -/
def truthy : Option Rat → Bool
  | none => false
  | some q => decide (q ≠ 0)

/- ffrotate.py lines 135-165 (batch_rotate_videos): the three job-level
   validations, the guarded single-level mkdir of the output directory, the
   staging directory, the item loop, the move loop, and the staging cleanup
   that the with-block performs on every exit path. -/
/- The post-validation body of batch_rotate_videos: staging directory, item
   loop, move loop, staging cleanup on every exit path (the with-block). -/
def batch_core (which_ffmpeg : Option String) (input_videos : List VideoInput)
    (rotation : String) (custom_angle : Option Rat) (output_dir : String) (fs1 : FS)
    (tr0 : List Ev) : BatchOut :=
  match runItems which_ffmpeg input_videos.length rotation custom_angle 0 input_videos
      (addTmpDir fs1) [] tr0 with
  | .error (e, fs2, outs, tr) => ⟨.raised e, cleanupTmp fs2, outs, tr ++ [.rmTmp]⟩
  | .ok (fs2, outs, tr) =>
    match runMoves output_dir outs fs2 tr with
    | .error (fs3, tr3) => ⟨.raised .fileNotFound, cleanupTmp fs3, outs, tr3 ++ [.rmTmp]⟩
    | .ok (fs3, tr3) => ⟨.done, cleanupTmp fs3, outs, tr3 ++ [.rmTmp]⟩

def batch_rotate_videos (which_ffmpeg : Option String) (input_videos : List VideoInput)
    (rotation : String) (custom_angle : Option Rat) (output_dir : String) (fs : FS) :
    BatchOut :=
  if input_videos = [] then
    ⟨.jobError "Error: No files uploaded.", fs, [], []⟩
  else if rotation = "custom" ∧ truthy custom_angle = false then
    ⟨.jobError "Error: Please provide a custom angle.", fs, [], []⟩
  else if output_dir = "" then
    ⟨.jobError "Error: Please specify an output directory.", fs, [], []⟩
  else
    match (if isdir fs output_dir = true then .ok fs else mkdirOne fs output_dir :
        Except PyErr FS) with
    | .error e => ⟨.raised e, fs, [], []⟩
    | .ok fs1 =>
      batch_core which_ffmpeg input_videos rotation custom_angle output_dir fs1
        ((if isdir fs output_dir = true then [] else [.mkOutDir output_dir]) ++ [.mkTmp])

/- Projections of the intermediate loop results onto the filesystem, used to
   state invariants that hold on normal and aborted paths alike. -/
def itemsFS : Except (PyErr × FS × List String × List Ev) (FS × List String × List Ev) → FS
  | .error (_, fs, _, _) => fs
  | .ok (fs, _, _) => fs

def movesFS : Except (FS × List Ev) (FS × List Ev) → FS
  | .error (fs, _) => fs
  | .ok (fs, _) => fs

/- The sequence of progress fractions observed through the trace. -/
def progressSeq : List Ev → List Rat
  | [] => []
  | .progressUpd i n :: es => ((i : Rat) / (n : Rat)) :: progressSeq es
  | _ :: es => progressSeq es

def isInvokeEv : Ev → Bool
  | .invoke _ => true
  | _ => false

def isProgressEv : Ev → Bool
  | .progressUpd _ _ => true
  | _ => false

/- Per-item work events: the progress update that opens an item's iteration,
   the process invocation, and the settle delay. -/
def itemEvent : Ev → Bool
  | .progressUpd _ _ => true
  | .invoke _ => true
  | .settle => true
  | _ => false

/- Formalization of detecting the missing transcoder at job start: scanning
   the trace, a binary check appears before any per-item work event. -/
def checkedAtJobStartB : List Ev → Bool
  | [] => false
  | .checkFfmpeg _ :: _ => true
  | e :: es => if itemEvent e then false else checkedAtJobStartB es

/- Expected event block of one successfully dispatched item (used to state
   the shape of the loop's trace). -/
def itemBlock (v : VideoInput) : List Ev :=
  [.checkFfmpeg true, .invoke v.name] ++ (if v.ok then [.settle] else [])

def loopEvs (n : Nat) : Nat → List VideoInput → List Ev
  | _, [] => []
  | i, v :: vs => .progressUpd i n :: (itemBlock v ++ loopEvs n (i + 1) vs)

/- Two-digit decimal rendering, for quantifying over every HH:MM:SS.ff
   marker in the duration-parsing claim. -/
def dg : Nat → Char
  | 0 => '0'
  | 1 => '1'
  | 2 => '2'
  | 3 => '3'
  | 4 => '4'
  | 5 => '5'
  | 6 => '6'
  | 7 => '7'
  | 8 => '8'
  | _ => '9'

def fmt2 (n : Nat) : List Char := [dg (n / 10), dg (n % 10)]

/- The characters of an HH:MM:SS.ff timestamp. -/
def durCA (h m s f : Nat) : List Char :=
  fmt2 h ++ ':' :: (fmt2 m ++ ':' :: (fmt2 s ++ '.' :: fmt2 f))

/- ------------------------------------------------------------------ -/
/- Theorems.                                                          -/
/- ------------------------------------------------------------------ -/

theorem isPre_iff : ∀ {s l : List Char}, isPre s l = true ↔ s <+: l
  | [], _ => by simp [isPre]
  | _ :: _, [] => by simp [isPre]
  | c :: cs, d :: ds => by
    simp [isPre, List.cons_prefix_cons, @isPre_iff cs ds]

theorem containsCA_iff : ∀ {sep l : List Char}, containsCA sep l = true ↔ sep <:+: l
  | sep, [] => by
    simp [containsCA, isPre_iff]
  | sep, c :: cs => by
    simp [containsCA, isPre_iff, List.infix_cons_iff,
      @containsCA_iff sep cs]

/- Shared helper: the three job-level validations of batch_rotate_videos,
   in source order, each returning its error string with the filesystem
   untouched and an empty trace. -/
theorem batch_validation_cases (wf : Option String) (inputs : List VideoInput)
    (rot : String) (ang : Option Rat) (od : String) (fs : FS) :
    (inputs = [] →
      batch_rotate_videos wf inputs rot ang od fs =
        ⟨.jobError "Error: No files uploaded.", fs, [], []⟩) ∧
    (inputs ≠ [] → rot = "custom" → truthy ang = false →
      batch_rotate_videos wf inputs rot ang od fs =
        ⟨.jobError "Error: Please provide a custom angle.", fs, [], []⟩) ∧
    (inputs ≠ [] → ¬(rot = "custom" ∧ truthy ang = false) → od = "" →
      batch_rotate_videos wf inputs rot ang od fs =
        ⟨.jobError "Error: Please specify an output directory.", fs, [], []⟩) := by
  refine ⟨fun h => ?_, fun h1 h2 h3 => ?_, fun h1 h2 h3 => ?_⟩
  · subst h; rfl
  · unfold batch_rotate_videos
    rw [if_neg h1, if_pos ⟨h2, h3⟩]
  · unfold batch_rotate_videos
    rw [if_neg h1, if_neg h2, if_pos h3]

/-- C4: for every rotation mode among the three fixed ones, the derived filter
expression is a pure function of the mode (the embedding is a pure function
and ignores the custom angle): mode 90 yields transpose=1, mode 180 yields
transpose=2,transpose=2, and mode 270 yields transpose=2. -/
theorem c4_filter_resolver :
    (∀ a, filter_option "90" a = some "transpose=1") ∧
    (∀ a, filter_option "180" a = some "transpose=2,transpose=2") ∧
    (∀ a, filter_option "270" a = some "transpose=2") :=
  ⟨fun _ => rfl, fun _ => rfl, fun _ => rfl⟩

/-- C6: the output path resolver yields the target directory joined with the
input's base name with the fixed suffix _rotated inserted before the original
extension (clip.mp4 in dir yields dir/clip_rotated.mp4), and resolving twice
for the same input and directory yields the same path both times (the
resolver is a pure function of its two arguments). -/
theorem c6_output_path_resolver :
    (∀ dir : String, output_path "clip.mp4" dir = pyJoin dir "clip_rotated.mp4") ∧
    (∀ input dir : String, output_path input dir = output_path input dir) := by
  have h : output_filename "clip.mp4" = "clip_rotated.mp4" := by decide
  exact ⟨fun dir => by rw [output_path, h], fun _ _ => rfl⟩

/-- C1: in a 3-input batch whose second input's transcode fails, the failure
is recorded as that item's outcome and iteration continues (3 outcomes:
Success, Failure, Success) — but finalization then feeds the recorded failure
string to the move operation, which raises FileNotFoundError, aborting the
batch after moving only the first file: the output directory ends with
exactly 1 file, not the 2 the claim requires, and the third staged output is
destroyed with the staging directory. -/
theorem c1_batch_eval_at_failing_input :
    batch_rotate_videos (some "/usr/bin/ffmpeg")
      [⟨"a.mp4", true, ""⟩, ⟨"b.mp4", false, "b unreadable"⟩, ⟨"c.mp4", true, ""⟩]
      "90" none "out" ⟨["out"], []⟩ =
    ⟨.raised .fileNotFound, ⟨["out"], ["out/a_rotated.mp4"]⟩,
      ["tmp_stage/a_rotated.mp4", "Error: b unreadable", "tmp_stage/c_rotated.mp4"],
      [.mkTmp, .progressUpd 0 3, .checkFfmpeg true, .invoke "a.mp4", .settle,
       .progressUpd 1 3, .checkFfmpeg true, .invoke "b.mp4",
       .progressUpd 2 3, .checkFfmpeg true, .invoke "c.mp4", .settle,
       .moveFile "tmp_stage/a_rotated.mp4" "out/a_rotated.mp4", .rmTmp]⟩ := by
  decide

/-- C2: each of the three job-level validations (empty input list, custom
mode with a falsy angle, empty output directory) makes the call fail with the
corresponding job-level error string before any work: the filesystem is
returned untouched and the event trace is empty (no transcoding, no
filesystem writes). -/
theorem c2_job_validations :
    ∀ (wf : Option String) (inputs : List VideoInput) (rot : String) (ang : Option Rat)
      (od : String) (fs : FS),
      (inputs = [] →
        batch_rotate_videos wf inputs rot ang od fs =
          ⟨.jobError "Error: No files uploaded.", fs, [], []⟩) ∧
      (inputs ≠ [] → rot = "custom" → truthy ang = false →
        batch_rotate_videos wf inputs rot ang od fs =
          ⟨.jobError "Error: Please provide a custom angle.", fs, [], []⟩) ∧
      (inputs ≠ [] → ¬(rot = "custom" ∧ truthy ang = false) → od = "" →
        batch_rotate_videos wf inputs rot ang od fs =
          ⟨.jobError "Error: Please specify an output directory.", fs, [], []⟩) :=
  fun wf inputs rot ang od fs => batch_validation_cases wf inputs rot ang od fs

theorem c2_job_validations_witness :
    batch_rotate_videos (some "f") [] "90" none "out" ⟨["out"], []⟩ =
      ⟨.jobError "Error: No files uploaded.", ⟨["out"], []⟩, [], []⟩ ∧
    batch_rotate_videos (some "f") [⟨"v.mp4", true, ""⟩] "custom" none "out" ⟨["out"], []⟩ =
      ⟨.jobError "Error: Please provide a custom angle.", ⟨["out"], []⟩, [], []⟩ ∧
    batch_rotate_videos (some "f") [⟨"v.mp4", true, ""⟩] "90" none "" ⟨["out"], []⟩ =
      ⟨.jobError "Error: Please specify an output directory.", ⟨["out"], []⟩, [], []⟩ :=
  ⟨(c2_job_validations (some "f") [] "90" none "out" ⟨["out"], []⟩).1 rfl,
   (c2_job_validations (some "f") [⟨"v.mp4", true, ""⟩] "custom" none "out"
      ⟨["out"], []⟩).2.1 (by decide) rfl (by decide),
   (c2_job_validations (some "f") [⟨"v.mp4", true, ""⟩] "90" none ""
      ⟨["out"], []⟩).2.2 (by decide) (by decide) rfl⟩

/-- C10: a non-empty batch call in custom mode whose supplied angle is
numerically zero is rejected with the missing-angle error, and is
indistinguishable from a call with no angle at all: the validation tests the
angle's truthiness. -/
theorem c10_zero_custom_angle :
    ∀ (wf : Option String) (inputs : List VideoInput) (od : String) (fs : FS),
      inputs ≠ [] →
      batch_rotate_videos wf inputs "custom" (some 0) od fs =
        ⟨.jobError "Error: Please provide a custom angle.", fs, [], []⟩ ∧
      batch_rotate_videos wf inputs "custom" (some 0) od fs =
        batch_rotate_videos wf inputs "custom" none od fs := by
  intro wf inputs od fs h
  have h0 : truthy (some 0) = false := by decide
  constructor
  · exact (batch_validation_cases wf inputs "custom" (some 0) od fs).2.1 h rfl h0
  · rw [(batch_validation_cases wf inputs "custom" (some 0) od fs).2.1 h rfl h0,
        (batch_validation_cases wf inputs "custom" none od fs).2.1 h rfl rfl]

theorem c10_zero_custom_angle_witness :
    batch_rotate_videos (some "f") [⟨"v.mp4", true, ""⟩] "custom" (some 0) "out"
        ⟨["out"], []⟩ =
      ⟨.jobError "Error: Please provide a custom angle.", ⟨["out"], []⟩, [], []⟩ ∧
    batch_rotate_videos (some "f") [⟨"v.mp4", true, ""⟩] "custom" (some 0) "out"
        ⟨["out"], []⟩ =
      batch_rotate_videos (some "f") [⟨"v.mp4", true, ""⟩] "custom" none "out"
        ⟨["out"], []⟩ :=
  c10_zero_custom_angle (some "f") [⟨"v.mp4", true, ""⟩] "out" ⟨["out"], []⟩ (by decide)

/-- C3 counterexample: with the transcoder binary unresolvable and an
otherwise valid 1-input batch, the trace shows per-item work (the first
item's progress update) before any binary check: detection does not happen at
job start before per-item work, refuting the claim as stated. -/
theorem c3_counterexample :
    ¬ (checkedAtJobStartB (batch_rotate_videos none [⟨"v.mp4", true, ""⟩] "90" none
        "out" ⟨["out"], []⟩).trace = true) := by
  decide

/-- C3 as amended: with the transcoder binary unresolvable, an otherwise
valid non-empty batch (existing output directory) aborts during the first
item's processing: the trace is exactly staging setup, the first progress
update, then a single failed binary check — the absence is detected exactly
once, surfaces as an uncaught fatal RuntimeError that aborts the whole batch,
and is never recorded as an individual item's outcome (the outcome list is
empty), but the detection happens after the first item's progress update,
not at job start. -/
theorem c3_amended :
    ∀ (v : VideoInput) (vs : List VideoInput) (rot : String) (ang : Option Rat)
      (od : String) (fs : FS),
      ¬(rot = "custom" ∧ truthy ang = false) → od ≠ "" → isdir fs od = true →
      batch_rotate_videos none (v :: vs) rot ang od fs =
        ⟨.raised (.runtimeError "FFmpeg is not installed or not in the system path."),
         cleanupTmp (addTmpDir fs), [],
         [.mkTmp, .progressUpd 0 (v :: vs).length, .checkFfmpeg false, .rmTmp]⟩ := by
  intro v vs rot ang od fs h2 h3 h4
  unfold batch_rotate_videos
  rw [if_neg (by simp : ¬(v :: vs = [])), if_neg h2, if_neg h3, if_pos h4, if_pos h4]
  simp [batch_core, runItems, rotate_video, check_ffmpeg]

theorem c3_amended_witness :
    batch_rotate_videos none [⟨"v.mp4", true, ""⟩] "90" none "out" ⟨["out"], []⟩ =
      ⟨.raised (.runtimeError "FFmpeg is not installed or not in the system path."),
       ⟨["out"], []⟩, [], [.mkTmp, .progressUpd 0 1, .checkFfmpeg false, .rmTmp]⟩ := by
  have h := c3_amended ⟨"v.mp4", true, ""⟩ [] "90" none "out" ⟨["out"], []⟩
    (by decide) (by decide) (by decide)
  rw [h]
  decide

/- Helper for C8: when no line of the diagnostic stream contains the word
   Duration, the scan finds nothing. -/
theorem findDurLine_eq_none :
    ∀ {lines : List (List Char)},
      (∀ l ∈ lines, ¬ "Duration".data <:+: l) → findDurLine lines = none
  | [], _ => rfl
  | l :: ls, h => by
    have hl : containsCA "Duration".data l = false := by
      rcases hc : containsCA "Duration".data l with _ | _
      · rfl
      · exact absurd (containsCA_iff.mp hc) (h l (List.mem_cons_self l ls))
    rw [findDurLine, hl]
    exact findDurLine_eq_none (fun x hx => h x (List.mem_cons_of_mem l hx))

/-- C8: for every diagnostic stream whose lines contain no Duration marker,
the duration probe fails with the duration-unavailable RuntimeError, that
error propagates through the preview extractor that calls the probe, and the
probe never returns any value (in particular never a default of zero
seconds). -/
theorem c8_no_duration_marker :
    ∀ (lines : List (List Char)) (rot : String) (ang : Option Rat),
      (∀ l ∈ lines, ¬ "Duration".data <:+: l) →
      get_video_duration lines =
        .error (.runtimeError "Could not determine video duration.") ∧
      extract_rotated_frame lines rot ang =
        .error (.runtimeError "Could not determine video duration.") ∧
      ∀ q : Rat, get_video_duration lines ≠ .ok q := by
  intro lines rot ang h
  have hd : get_video_duration lines =
      .error (.runtimeError "Could not determine video duration.") := by
    rw [get_video_duration, findDurLine_eq_none h]
  refine ⟨hd, ?_, ?_⟩
  · rw [extract_rotated_frame, hd]
  · intro q hq
    rw [hd] at hq
    exact Except.noConfusion hq

theorem c8_no_duration_marker_witness :
    get_video_duration ["ffmpeg version 6.0".data, "".data] =
      .error (.runtimeError "Could not determine video duration.") ∧
    extract_rotated_frame ["ffmpeg version 6.0".data, "".data] "90" none =
      .error (.runtimeError "Could not determine video duration.") ∧
    ∀ q : Rat, get_video_duration ["ffmpeg version 6.0".data, "".data] ≠ .ok q :=
  c8_no_duration_marker ["ffmpeg version 6.0".data, "".data] "90" none (by decide)

/- Membership lemmas for the insert-if-absent list operation and the
   directory-creating functions. -/
theorem mem_insertF {x y : String} {l : List String} (h : x ∈ l) : x ∈ insertF y l := by
  unfold insertF
  split
  · exact h
  · exact List.mem_cons_of_mem _ h

theorem self_mem_insertF (y : String) (l : List String) : y ∈ insertF y l := by
  unfold insertF
  split
  · assumption
  · exact List.mem_cons_self _ _

theorem mem_foldl_insertF {x : String} :
    ∀ {ps acc : List String}, x ∈ acc → x ∈ ps.foldl (fun a p => insertF p a) acc
  | [], _, h => h
  | p :: ps, acc, h => @mem_foldl_insertF x ps (insertF p acc) (mem_insertF h)

theorem mem_foldl_insertF_of_mem {x : String} :
    ∀ {ps acc : List String}, x ∈ ps → x ∈ ps.foldl (fun a p => insertF p a) acc
  | p :: ps, acc, h => by
    rw [List.foldl_cons]
    rcases List.mem_cons.mp h with rfl | h2
    · exact mem_foldl_insertF (self_mem_insertF x acc)
    · exact mem_foldl_insertF_of_mem h2

theorem mkdirs_dirs_mono {x : String} {fs : FS} {d : String} (h : x ∈ fs.dirs) :
    x ∈ (mkdirs fs d).dirs :=
  mem_foldl_insertF h

theorem pathPrefixes_mem_mkdirs {p : String} {fs : FS} {d : String}
    (h : p ∈ pathPrefixes d) : p ∈ (mkdirs fs d).dirs :=
  mem_foldl_insertF_of_mem h

theorem rotate_video_dirs_mono {x : String} (wf : Option String) (v : VideoInput)
    (rot : String) (ang : Option Rat) (od : String) (fs : FS) (h : x ∈ fs.dirs) :
    x ∈ (rotate_video wf v rot ang od fs).2.1.dirs := by
  rcases wf with _ | p
  · simpa [rotate_video, check_ffmpeg] using h
  · rcases hf : filter_option rot ang with _ | filt
    · simpa [rotate_video, check_ffmpeg, hf] using @mkdirs_dirs_mono x fs od h
    · rcases hv : v.ok with _ | _ <;>
        simpa [rotate_video, check_ffmpeg, hf, hv, addFile] using
          @mkdirs_dirs_mono x fs od h

theorem runItems_dirs_mono {x : String} (wf : Option String) (n : Nat) (rot : String)
    (ang : Option Rat) :
    ∀ (vs : List VideoInput) (i : Nat) (fs : FS) (outs : List String) (tr : List Ev),
      x ∈ fs.dirs → x ∈ (itemsFS (runItems wf n rot ang i vs fs outs tr)).dirs
  | [], _, _, _, _, h => h
  | v :: vs, i, fs, outs, tr, h => by
    have hm := rotate_video_dirs_mono wf v rot ang tmpD fs h
    rw [runItems]
    rcases hr : rotate_video wf v rot ang tmpD fs with ⟨evs, fs1, r⟩
    rw [hr] at hm
    rcases r with e | res
    · exact hm
    · exact runItems_dirs_mono wf n rot ang vs (i + 1) fs1 (outs ++ [res])
        (tr ++ .progressUpd i n :: evs) hm

theorem runMoves_dirs_eq (od : String) :
    ∀ (files : List String) (fs : FS) (tr : List Ev),
      (movesFS (runMoves od files fs tr)).dirs = fs.dirs
  | [], _, _ => rfl
  | f :: rest, fs, tr => by
    rw [runMoves]
    split
    · exact runMoves_dirs_eq od rest _ _
    · rfl

/- Helper: reduce a validated batch call to its post-validation core. -/
theorem batch_eq_core (wf : Option String) (inputs : List VideoInput) (rot : String)
    (ang : Option Rat) (od : String) (fs fs1 : FS)
    (h1 : inputs ≠ []) (h2 : ¬(rot = "custom" ∧ truthy ang = false)) (h3 : od ≠ "")
    (hok : (if isdir fs od = true then .ok fs else mkdirOne fs od : Except PyErr FS) =
      .ok fs1) :
    batch_rotate_videos wf inputs rot ang od fs =
      batch_core wf inputs rot ang od fs1
        ((if isdir fs od = true then [] else [.mkOutDir od]) ++ [.mkTmp]) := by
  unfold batch_rotate_videos
  rw [if_neg h1, if_neg h2, if_neg h3, hok]

/- Helper: a directory other than the staging directory that exists when the
   core starts still exists when the batch call ends, on every exit path. -/
theorem batch_core_keeps_dir (wf : Option String) (inputs : List VideoInput)
    (rot : String) (ang : Option Rat) (od : String) (fs1 : FS) (tr0 : List Ev)
    (x : String) (hx : x ∈ fs1.dirs) (hxt : x ≠ tmpD) :
    x ∈ (batch_core wf inputs rot ang od fs1 tr0).fs.dirs := by
  have hm := @runItems_dirs_mono x wf inputs.length rot ang inputs 0 (addTmpDir fs1)
    [] tr0 (mem_insertF hx)
  unfold batch_core
  split
  · rename_i e fs2 outs tr hr
    rw [hr] at hm
    simp only [itemsFS] at hm
    simpa [cleanupTmp] using (List.mem_erase_of_ne hxt).mpr hm
  · rename_i fs2 outs tr hr
    rw [hr] at hm
    simp only [itemsFS] at hm
    have hd := runMoves_dirs_eq od outs fs2 tr
    split
    · rename_i fs3 tr3 hm2
      rw [hm2] at hd
      simp only [movesFS] at hd
      simpa [cleanupTmp] using (List.mem_erase_of_ne hxt).mpr (hd ▸ hm)
    · rename_i fs3 tr3 hm2
      rw [hm2] at hd
      simp only [movesFS] at hd
      simpa [cleanupTmp] using (List.mem_erase_of_ne hxt).mpr (hd ▸ hm)

/-- C7 counterexample: a batch call whose absent output directory has an
absent intermediate segment (a/b with a missing) does not create the
directory: the claim that the operation ensures the directory exists,
including absent intermediate segments, fails on this input. -/
theorem c7_counterexample :
    ¬ (isdir (batch_rotate_videos (some "f") [⟨"v.mp4", true, ""⟩] "90" none "a/b"
        ⟨[], []⟩).fs "a/b" = true) := by
  decide

/-- C7 as amended: the batch operation creates the absent output directory
only when its parent segment already exists (single-level creation): in that
case the directory exists when the call returns, on every exit path; when an
intermediate segment is absent the call aborts with FileNotFoundError before
any item runs and creates nothing.  Only the per-item rotate operation's
makedirs creates intermediate segments: every leading join of the requested
path is present after it runs. -/
theorem c7_amended :
    ∀ (wf : Option String) (inputs : List VideoInput) (rot : String) (ang : Option Rat)
      (od : String) (fs : FS),
      inputs ≠ [] → ¬(rot = "custom" ∧ truthy ang = false) → od ≠ "" → od ≠ tmpD →
      ((isdir fs od = true ∨ dirname od = "" ∨ isdir fs (dirname od) = true →
        isdir (batch_rotate_videos wf inputs rot ang od fs).fs od = true)) ∧
      (isdir fs od = false → dirname od ≠ "" → isdir fs (dirname od) = false →
        batch_rotate_videos wf inputs rot ang od fs =
          ⟨.raised .fileNotFound, fs, [], []⟩) ∧
      (∀ (fs2 : FS) (d p : String), p ∈ pathPrefixes d → p ∈ (mkdirs fs2 d).dirs) := by
  intro wf inputs rot ang od fs h1 h2 h3 h4
  refine ⟨?_, ?_, fun fs2 d p hp => pathPrefixes_mem_mkdirs hp⟩
  · intro hdisj
    cases hio : isdir fs od with
    | true =>
      rw [batch_eq_core wf inputs rot ang od fs fs h1 h2 h3 (if_pos hio)]
      have hx : od ∈ fs.dirs := of_decide_eq_true hio
      simp only [isdir]
      exact decide_eq_true (batch_core_keeps_dir _ _ _ _ _ _ _ _ hx h4)
    | false =>
      have hpar : dirname od = "" ∨ isdir fs (dirname od) = true := by
        rcases hdisj with h | h | h
        · rw [hio] at h; exact absurd h (by simp)
        · exact Or.inl h
        · exact Or.inr h
      have hok : (if isdir fs od = true then .ok fs else mkdirOne fs od :
          Except PyErr FS) = .ok ⟨insertF od fs.dirs, fs.files⟩ := by
        rw [if_neg (by simp [hio]), mkdirOne, if_pos hpar]
      rw [batch_eq_core wf inputs rot ang od fs _ h1 h2 h3 hok]
      simp only [isdir]
      exact decide_eq_true
        (batch_core_keeps_dir _ _ _ _ _ _ _ _ (self_mem_insertF od fs.dirs) h4)
  · intro hio hp1 hp2
    unfold batch_rotate_videos
    rw [if_neg h1, if_neg h2, if_neg h3]
    have hnp : ¬(dirname od = "" ∨ isdir fs (dirname od) = true) := by
      rintro (h | h)
      · exact hp1 h
      · rw [hp2] at h; exact Bool.false_ne_true h
    have hok : (if isdir fs od = true then .ok fs else mkdirOne fs od :
        Except PyErr FS) = .error .fileNotFound := by
      rw [if_neg (by simp [hio]), mkdirOne, if_neg hnp]
    rw [hok]

theorem c7_amended_witness :
    isdir (batch_rotate_videos (some "f") [⟨"v.mp4", true, ""⟩] "90" none "a"
        ⟨[], []⟩).fs "a" = true ∧
    batch_rotate_videos (some "f") [⟨"v.mp4", true, ""⟩] "90" none "x/y" ⟨[], []⟩ =
      ⟨.raised .fileNotFound, ⟨[], []⟩, [], []⟩ ∧
    "a" ∈ (mkdirs ⟨[], []⟩ "a/b/c").dirs :=
  ⟨(c7_amended (some "f") [⟨"v.mp4", true, ""⟩] "90" none "a" ⟨[], []⟩
      (by decide) (by decide) (by decide) (by decide)).1 (by decide),
   (c7_amended (some "f") [⟨"v.mp4", true, ""⟩] "90" none "x/y" ⟨[], []⟩
      (by decide) (by decide) (by decide) (by decide)).2.1 (by decide) (by decide)
      (by decide),
   (c7_amended (some "f") [⟨"v.mp4", true, ""⟩] "90" none "a" ⟨[], []⟩
      (by decide) (by decide) (by decide) (by decide)).2.2 ⟨[], []⟩ "a/b/c" "a"
      (by decide)⟩

/- Fuel irrelevance for the split: any fuel at least the list length gives
   the same result (the separator must be nonempty). -/
theorem pySplitF_fuel (d : Char) (r : List Char) :
    ∀ (l : List Char) (f1 f2 : Nat) (acc : List Char), l.length ≤ f1 → l.length ≤ f2 →
      pySplitF (d :: r) f1 l acc = pySplitF (d :: r) f2 l acc
  | [], f1, f2, acc, _, _ => by cases f1 <;> cases f2 <;> rfl
  | c :: cs, 0, _, _, h1, _ => absurd h1 (by simp)
  | c :: cs, _ + 1, 0, _, _, h2 => absurd h2 (by simp)
  | c :: cs, f1 + 1, f2 + 1, acc, h1, h2 => by
    rw [pySplitF, pySplitF]
    by_cases hp : isPre (d :: r) (c :: cs) = true
    · rw [if_pos hp, if_pos hp]
      have hl1 : ((c :: cs).drop (d :: r).length).length ≤ f1 := by
        simp only [List.length_drop, List.length_cons] at h1 ⊢
        omega
      have hl2 : ((c :: cs).drop (d :: r).length).length ≤ f2 := by
        simp only [List.length_drop, List.length_cons] at h2 ⊢
        omega
      rw [pySplitF_fuel d r ((c :: cs).drop (d :: r).length) f1 f2 [] hl1 hl2]
    · rw [if_neg hp, if_neg hp]
      have hl1 : cs.length ≤ f1 := by
        simp only [List.length_cons] at h1
        omega
      have hl2 : cs.length ≤ f2 := by
        simp only [List.length_cons] at h2
        omega
      exact pySplitF_fuel d r cs f1 f2 (c :: acc) hl1 hl2

/- A list with no occurrence of the separator is returned whole. -/
theorem pySplitF_no_occ (d : Char) (r : List Char) :
    ∀ (l : List Char) (f : Nat) (acc : List Char), l.length ≤ f →
      ¬ (d :: r) <:+: l →
      pySplitF (d :: r) f l acc = [acc.reverse ++ l]
  | [], f, acc, _, _ => by cases f <;> simp [pySplitF]
  | c :: cs, 0, acc, h, _ => absurd h (by simp)
  | c :: cs, f + 1, acc, h, hocc => by
    have hp : ¬ isPre (d :: r) (c :: cs) = true := fun hb =>
      hocc (List.IsPrefix.isInfix (isPre_iff.mp hb))
    have hlen : cs.length ≤ f := by
      simp only [List.length_cons] at h
      omega
    have hocc2 : ¬ (d :: r) <:+: cs := fun hi => hocc (List.infix_cons hi)
    rw [pySplitF, if_neg hp, pySplitF_no_occ d r cs f (c :: acc) hlen hocc2]
    simp

theorem pySplitCA_no_occ (sep : List Char) (d : Char) (r : List Char)
    (hsep : sep = d :: r) (l : List Char) (h : ¬ sep <:+: l) :
    pySplitCA sep l = [l] := by
  subst hsep
  unfold pySplitCA
  rw [pySplitF_no_occ d r l l.length [] (le_refl _) h]
  rfl

/- Splitting at the first occurrence: when the separator's first character
   does not appear in the leading chunk, the split peels that chunk off. -/
theorem pySplitF_occ (d : Char) (r : List Char) :
    ∀ (a b : List Char) (f : Nat) (acc : List Char),
      (a ++ (d :: r) ++ b).length ≤ f → d ∉ a →
      pySplitF (d :: r) f (a ++ (d :: r) ++ b) acc =
        (acc.reverse ++ a) :: pySplitCA (d :: r) b
  | [], b, 0, acc, hlen, _ => absurd hlen (by simp)
  | [], b, f + 1, acc, hlen, _ => by
    simp only [List.nil_append, List.cons_append] at hlen ⊢
    have hp : isPre (d :: r) (d :: (r ++ b)) = true :=
      isPre_iff.mpr (by simp)
    rw [pySplitF, if_pos hp]
    have hdrop : (d :: (r ++ b)).drop (d :: r).length = b := by
      have h0 := List.drop_left (d :: r) b
      rw [List.cons_append] at h0
      exact h0
    rw [hdrop]
    have hblen : b.length ≤ f := by
      simp only [List.length_cons, List.length_append] at hlen
      omega
    rw [pySplitF_fuel d r b f b.length [] hblen (le_refl _)]
    simp [pySplitCA]
  | x :: a, b, 0, acc, hlen, _ => absurd hlen (by simp)
  | x :: a, b, f + 1, acc, hlen, hd => by
    have hxd : ¬ d = x := fun hh => hd (by simp [hh])
    have hshape : (x :: a) ++ (d :: r) ++ b = x :: (a ++ (d :: r) ++ b) := by simp
    rw [hshape]
    have hp : ¬ isPre (d :: r) (x :: (a ++ (d :: r) ++ b)) = true := by
      simp [isPre, hxd]
    have hlen2 : (a ++ (d :: r) ++ b).length ≤ f := by
      rw [hshape] at hlen
      simp only [List.length_cons] at hlen
      omega
    have hd2 : d ∉ a := fun hm => hd (List.mem_cons_of_mem x hm)
    rw [pySplitF, if_neg hp, pySplitF_occ d r a b f (x :: acc) hlen2 hd2]
    simp

theorem pySplitCA_occ (sep : List Char) (d : Char) (r : List Char)
    (hsep : sep = d :: r) (a b : List Char) (ha : d ∉ a) :
    pySplitCA sep (a ++ sep ++ b) = a :: pySplitCA sep b := by
  subst hsep
  unfold pySplitCA
  rw [pySplitF_occ d r a b (a ++ (d :: r) ++ b).length [] (le_refl _) ha]
  simp [pySplitCA]

/- Specializations for a single-character separator in cons form. -/
theorem single_infix_iff {c : Char} {l : List Char} : [c] <:+: l ↔ c ∈ l := by
  constructor
  · rintro ⟨s, t, rfl⟩
    simp
  · intro hm
    rcases List.append_of_mem hm with ⟨s, t, rfl⟩
    exact ⟨s, t, by simp⟩

theorem pySplitCA_single_occ (c : Char) (a b : List Char) (ha : c ∉ a) :
    pySplitCA [c] (a ++ c :: b) = a :: pySplitCA [c] b := by
  have h := pySplitCA_occ [c] c [] rfl a b ha
  simpa using h

theorem pySplitCA_single_no (c : Char) (l : List Char) (h : c ∉ l) :
    pySplitCA [c] l = [l] :=
  pySplitCA_no_occ [c] c [] rfl l (fun hi => h (single_infix_iff.mp hi))

/- Character facts about the digit renderer. -/
theorem dg_isDigit (n : Nat) : (dg n).isDigit = true := by
  rcases n with _ | _ | _ | _ | _ | _ | _ | _ | _ | n <;> rfl

theorem dg_ne_of_not_digit {c : Char} (hc : ¬ c.isDigit = true) (n : Nat) :
    ¬ dg n = c :=
  fun h => hc (h ▸ dg_isDigit n)

theorem dg_ne_colon (n : Nat) : ¬ dg n = ':' := dg_ne_of_not_digit (by decide) n

theorem dg_ne_comma (n : Nat) : ¬ dg n = ',' := dg_ne_of_not_digit (by decide) n

theorem dg_ne_dot (n : Nat) : ¬ dg n = '.' := dg_ne_of_not_digit (by decide) n

theorem dg_ne_upperD (n : Nat) : ¬ dg n = 'D' := dg_ne_of_not_digit (by decide) n

theorem digToNat_dg {n : Nat} (h : n ≤ 9) : digToNat (dg n) = n := by
  interval_cases n <;> rfl

theorem mem_fmt2 {c : Char} {n : Nat} (h : c ∈ fmt2 n) :
    c = dg (n / 10) ∨ c = dg (n % 10) := by
  simpa [fmt2] using h

theorem colon_not_mem_fmt2 (n : Nat) : ':' ∉ fmt2 n := fun h => by
  rcases mem_fmt2 h with h2 | h2 <;> exact dg_ne_colon _ h2.symm

theorem comma_not_mem_fmt2 (n : Nat) : ',' ∉ fmt2 n := fun h => by
  rcases mem_fmt2 h with h2 | h2 <;> exact dg_ne_comma _ h2.symm

theorem dot_not_mem_fmt2 (n : Nat) : '.' ∉ fmt2 n := fun h => by
  rcases mem_fmt2 h with h2 | h2 <;> exact dg_ne_dot _ h2.symm

theorem fmt2_digits (n : Nat) : isDigitList (fmt2 n) = true := by
  simp [fmt2, isDigitList, dg_isDigit]

theorem fmt2_ne_nil (n : Nat) : fmt2 n ≠ [] := by simp [fmt2]

theorem pda_nil (acc : Nat) : parseDigitsAcc acc [] = acc := rfl

theorem pda_cons (acc : Nat) (c : Char) (cs : List Char) :
    parseDigitsAcc acc (c :: cs) = parseDigitsAcc (10 * acc + digToNat c) cs := rfl

theorem parseDigitsAcc_two (a b : Nat) (ha : a ≤ 9) (hb : b ≤ 9) :
    parseDigitsAcc 0 [dg a, dg b] = 10 * a + b := by
  rw [pda_cons, pda_cons, pda_nil, digToNat_dg ha, digToNat_dg hb]
  omega

theorem fmt2_length (n : Nat) : (fmt2 n).length = 2 := rfl

theorem parseDigitsAcc_fmt2 {n : Nat} (h : n < 100) : parseDigitsAcc 0 (fmt2 n) = n := by
  have h1 : n / 10 ≤ 9 := by omega
  have h2 : n % 10 ≤ 9 := by omega
  rw [fmt2, parseDigitsAcc_two _ _ h1 h2]
  omega

/- Evaluating the float parser on the formatted fields. -/
theorem pyFloatCA_fmt2 {n : Nat} (h : n < 100) : pyFloatCA (fmt2 n) = some (n : Rat) := by
  rw [pyFloatCA, pySplitCA_single_no '.' (fmt2 n) (dot_not_mem_fmt2 n)]
  simp [fmt2_ne_nil, fmt2_digits, parseDigitsAcc_fmt2 h]

theorem pyFloatCA_fmt2_frac {s f : Nat} (hs : s < 100) (hf : f < 100) :
    pyFloatCA (fmt2 s ++ '.' :: fmt2 f) = some ((s : Rat) + (f : Rat) / 100) := by
  have hsplit : pySplitCA ['.'] (fmt2 s ++ '.' :: fmt2 f) = [fmt2 s, fmt2 f] := by
    rw [pySplitCA_single_occ '.' (fmt2 s) (fmt2 f) (dot_not_mem_fmt2 s),
      pySplitCA_single_no '.' (fmt2 f) (dot_not_mem_fmt2 f)]
  rw [pyFloatCA, hsplit]
  norm_num [fmt2_ne_nil, fmt2_digits, parseDigitsAcc_fmt2 hs, parseDigitsAcc_fmt2 hf,
    fmt2_length]

theorem colon_not_mem_tailSS (s f : Nat) : ':' ∉ fmt2 s ++ '.' :: fmt2 f := by
  simp only [List.mem_append, List.mem_cons]
  rintro (hc | hc | hc)
  · exact colon_not_mem_fmt2 s hc
  · exact absurd hc (by decide)
  · exact colon_not_mem_fmt2 f hc

theorem comma_not_mem_durCA (h m s f : Nat) : ',' ∉ durCA h m s f := by
  simp only [durCA, List.mem_append, List.mem_cons]
  rintro (hc | hc | hc | hc | hc | hc | hc)
  · exact comma_not_mem_fmt2 h hc
  · exact absurd hc (by decide)
  · exact comma_not_mem_fmt2 m hc
  · exact absurd hc (by decide)
  · exact comma_not_mem_fmt2 s hc
  · exact absurd hc (by decide)
  · exact comma_not_mem_fmt2 f hc

theorem durCA_ne_nil (h m s f : Nat) : ¬ (durCA h m s f = []) := by
  simp [durCA, fmt2]

/- Lines with no Duration word are skipped by the scan. -/
theorem findDurLine_skip :
    ∀ {before : List (List Char)}, (∀ l ∈ before, ¬ "Duration".data <:+: l) →
      ∀ (line : List Char) (after : List (List Char)),
        containsCA "Duration".data line = true →
        findDurLine (before ++ line :: after) = some line
  | [], _, line, after, hl => by
    rw [List.nil_append, findDurLine, if_pos hl]
  | b :: before, h, line, after, hl => by
    have hb : containsCA "Duration".data b = false := by
      rcases hc : containsCA "Duration".data b with _ | _
      · rfl
      · exact absurd (containsCA_iff.mp hc) (h b (List.mem_cons_self b before))
    rw [List.cons_append, findDurLine, if_neg (by simp [hb])]
    exact findDurLine_skip (fun x hx => h x (List.mem_cons_of_mem b hx)) line after hl

/-- C5: for every diagnostic stream whose marker line carries a
Duration: HH:MM:SS.ff timestamp (any two-digit fields, any preamble free of
the letter D, any lines before the marker line free of the word Duration, any
comma-terminated rest of line without a second separator occurrence), the
duration probe parses it into seconds as h*3600 + m*60 + s where s carries
the fractional part; in particular 00:01:30.50 parses to exactly 90.5. -/
theorem c5_duration_parse :
    ∀ (h m s f : Nat) (pre post : List Char) (before after : List (List Char)),
      h < 100 → m < 100 → s < 100 → f < 100 →
      'D' ∉ pre →
      (∀ l ∈ before, ¬ "Duration".data <:+: l) →
      ¬ "Duration: ".data <:+: (durCA h m s f ++ ',' :: post) →
      get_video_duration
          (before ++ (pre ++ "Duration: ".data ++ (durCA h m s f ++ ',' :: post)) :: after) =
        .ok ((h : Rat) * 3600 + (m : Rat) * 60 + ((s : Rat) + (f : Rat) / 100)) := by
  intro h m s f pre post before after hh hm hs hf hD hbef hno
  have hcat : "Duration".data ++ ": ".data = "Duration: ".data := by decide
  have hcontains : containsCA "Duration".data
      (pre ++ "Duration: ".data ++ (durCA h m s f ++ ',' :: post)) = true := by
    apply containsCA_iff.mpr
    refine ⟨pre, ": ".data ++ (durCA h m s f ++ ',' :: post), ?_⟩
    rw [← hcat]
    simp
  have hfind := findDurLine_skip hbef _ after hcontains
  have hsplit1 : pySplitCA "Duration: ".data
      (pre ++ "Duration: ".data ++ (durCA h m s f ++ ',' :: post)) =
      pre :: pySplitCA "Duration: ".data (durCA h m s f ++ ',' :: post) :=
    pySplitCA_occ "Duration: ".data 'D' "uration: ".data rfl pre _ hD
  have hsplit2 : pySplitCA "Duration: ".data (durCA h m s f ++ ',' :: post) =
      [durCA h m s f ++ ',' :: post] :=
    pySplitCA_no_occ "Duration: ".data 'D' "uration: ".data rfl _ hno
  have hget : (pySplitCA "Duration: ".data
      (pre ++ "Duration: ".data ++ (durCA h m s f ++ ',' :: post))).get? 1 =
      some (durCA h m s f ++ ',' :: post) := by
    rw [hsplit1, hsplit2]
    rfl
  have hcomma : pySplitCA [','] (durCA h m s f ++ ',' :: post) =
      durCA h m s f :: pySplitCA [','] post :=
    pySplitCA_single_occ ',' _ _ (comma_not_mem_durCA h m s f)
  have hcolon : pySplitCA [':'] (durCA h m s f) =
      [fmt2 h, fmt2 m, fmt2 s ++ '.' :: fmt2 f] := by
    unfold durCA
    rw [pySplitCA_single_occ ':' _ _ (colon_not_mem_fmt2 h),
      pySplitCA_single_occ ':' _ _ (colon_not_mem_fmt2 m),
      pySplitCA_single_no ':' _ (colon_not_mem_tailSS s f)]
  simp only [get_video_duration, hfind, hget, hcomma, List.headI, durCA_ne_nil h m s f,
    if_false, hcolon, pyFloatCA_fmt2 hh, pyFloatCA_fmt2 hm, pyFloatCA_fmt2_frac hs hf]

theorem c5_duration_parse_witness :
    get_video_duration ["  Duration: 00:01:30.50, start: 0.000000".data] =
      .ok ((181 : Rat) / 2) := by
  have hline : ("  Duration: 00:01:30.50, start: 0.000000".data : List Char) =
      "  ".data ++ "Duration: ".data ++
        (durCA 0 1 30 50 ++ ',' :: " start: 0.000000".data) := by
    decide
  have h := c5_duration_parse 0 1 30 50 "  ".data " start: 0.000000".data [] []
    (by omega) (by omega) (by omega) (by omega) (by decide) (by simp) (by decide)
  rw [show (["  Duration: 00:01:30.50, start: 0.000000".data] : List (List Char)) =
      [] ++ ("  ".data ++ "Duration: ".data ++
        (durCA 0 1 30 50 ++ ',' :: " start: 0.000000".data)) :: [] by
    rw [← hline]
    rfl]
  rw [h]
  norm_num

/- Progress-sequence homomorphisms. -/
theorem progressSeq_append :
    ∀ (a b : List Ev), progressSeq (a ++ b) = progressSeq a ++ progressSeq b
  | [], _ => rfl
  | e :: a, b => by
    cases e <;> simp [progressSeq, progressSeq_append a b]

theorem progressSeq_itemBlock (v : VideoInput) : progressSeq (itemBlock v) = [] := by
  rcases hv : v.ok with _ | _ <;> simp [itemBlock, hv, progressSeq]

theorem progressSeq_loopEvs (n : Nat) :
    ∀ (vs : List VideoInput) (i : Nat),
      progressSeq (loopEvs n i vs) =
        (List.range' i vs.length).map (fun k : Nat => (k : Rat) / (n : Rat))
  | [], i => by simp [loopEvs, progressSeq]
  | v :: vs, i => by
    rw [loopEvs, List.length_cons, List.range'_succ, List.map_cons]
    show ((i : Rat) / (n : Rat)) :: progressSeq (itemBlock v ++ loopEvs n (i + 1) vs) = _
    rw [progressSeq_append, progressSeq_itemBlock, progressSeq_loopEvs n vs (i + 1)]
    simp

/- The item loop with a resolvable binary and a known rotation key completes
   every item and appends exactly the expected per-item event blocks. -/
theorem runItems_ok_shape (p : String) (n : Nat) (rot : String) (ang : Option Rat)
    (hfo : (filter_option rot ang).isSome = true) :
    ∀ (vs : List VideoInput) (i : Nat) (fs : FS) (outs : List String) (tr : List Ev),
      ∃ (fs2 : FS) (outs2 : List String),
        runItems (some p) n rot ang i vs fs outs tr =
          .ok (fs2, outs ++ outs2, tr ++ loopEvs n i vs)
  | [], i, fs, outs, tr => ⟨fs, [], by simp [runItems, loopEvs]⟩
  | v :: vs, i, fs, outs, tr => by
    rcases hf : filter_option rot ang with _ | filt
    · rw [hf] at hfo
      cases hfo
    · rcases hv : v.ok with _ | _
      · have hr : rotate_video (some p) v rot ang tmpD fs =
            ([.checkFfmpeg true, .invoke v.name], mkdirs fs tmpD,
              .ok ("Error: " ++ v.errMsg)) := by
          simp [rotate_video, check_ffmpeg, hf, hv]
        obtain ⟨fs2, outs2, ih⟩ := runItems_ok_shape p n rot ang hfo vs (i + 1)
          (mkdirs fs tmpD) (outs ++ ["Error: " ++ v.errMsg])
          (tr ++ .progressUpd i n :: [.checkFfmpeg true, .invoke v.name])
        refine ⟨fs2, ("Error: " ++ v.errMsg) :: outs2, ?_⟩
        rw [runItems, hr]
        simp [ih, loopEvs, itemBlock, hv]
      · have hr : rotate_video (some p) v rot ang tmpD fs =
            ([.checkFfmpeg true, .invoke v.name, .settle],
              addFile (mkdirs fs tmpD) (output_path v.name tmpD),
              .ok (output_path v.name tmpD)) := by
          simp [rotate_video, check_ffmpeg, hf, hv]
        obtain ⟨fs2, outs2, ih⟩ := runItems_ok_shape p n rot ang hfo vs (i + 1)
          (addFile (mkdirs fs tmpD) (output_path v.name tmpD))
          (outs ++ [output_path v.name tmpD])
          (tr ++ .progressUpd i n :: [.checkFfmpeg true, .invoke v.name, .settle])
        refine ⟨fs2, output_path v.name tmpD :: outs2, ?_⟩
        rw [runItems, hr]
        simp [ih, loopEvs, itemBlock, hv]

/- The move loop appends only move events, whether it completes or aborts. -/
theorem runMoves_trace_shape (od : String) :
    ∀ (files : List String) (fs : FS) (tr : List Ev),
      ∃ (fs2 : FS) (extra : List Ev),
        extra.countP isInvokeEv = 0 ∧ extra.countP isProgressEv = 0 ∧
        progressSeq extra = [] ∧
        (runMoves od files fs tr = .ok (fs2, tr ++ extra) ∨
         runMoves od files fs tr = .error (fs2, tr ++ extra))
  | [], fs, tr => ⟨fs, [], by simp, by simp, rfl, Or.inl (by simp [runMoves])⟩
  | f :: rest, fs, tr => by
    by_cases hf : f ∈ fs.files
    · obtain ⟨fs2, extra, h1, h2, hps, h3⟩ := runMoves_trace_shape od rest
        ⟨fs.dirs, insertF (pyJoin od (String.mk (basenameCA f.data))) (fs.files.erase f)⟩
        (tr ++ [.moveFile f (pyJoin od (String.mk (basenameCA f.data)))])
      refine ⟨fs2, .moveFile f (pyJoin od (String.mk (basenameCA f.data))) :: extra,
        by simp [List.countP_cons, h1, isInvokeEv],
        by simp [List.countP_cons, h2, isProgressEv],
        by simp [progressSeq, hps], ?_⟩
      rw [runMoves, if_pos hf]
      rcases h3 with h3 | h3
      · exact Or.inl (by rw [h3]; simp)
      · exact Or.inr (by rw [h3]; simp)
    · exact ⟨fs, [], by simp, by simp, rfl,
        Or.inr (by rw [runMoves, if_neg hf]; simp)⟩

/- Counting machinery for the progress-before-work invariant. -/
theorem countP_take_le (p : Ev → Bool) (t : List Ev) (k : Nat) :
    (t.take k).countP p ≤ t.countP p :=
  List.Sublist.countP_le p (List.take_sublist k t)

theorem balance_of_no_invoke {l : List Ev} (h : l.countP isInvokeEv = 0) (k : Nat) :
    (l.take k).countP isInvokeEv ≤ (l.take k).countP isProgressEv :=
  le_trans (le_trans (countP_take_le _ l k) h.le) (Nat.zero_le _)

theorem take_balance_append (a b : List Ev)
    (ha : ∀ k, (a.take k).countP isInvokeEv ≤ (a.take k).countP isProgressEv)
    (hb : ∀ k, (b.take k).countP isInvokeEv ≤ (b.take k).countP isProgressEv) :
    ∀ k, ((a ++ b).take k).countP isInvokeEv ≤ ((a ++ b).take k).countP isProgressEv := by
  intro k
  rw [List.take_append_eq_append_take, List.countP_append, List.countP_append]
  exact Nat.add_le_add (ha k) (hb (k - a.length))

theorem itemBlock_balance (v : VideoInput) (i n : Nat) :
    ∀ k, ((Ev.progressUpd i n :: itemBlock v).take k).countP isInvokeEv ≤
      ((Ev.progressUpd i n :: itemBlock v).take k).countP isProgressEv := by
  intro k
  rcases hv : v.ok with _ | _ <;>
    rcases k with _ | _ | _ | _ | _ | k <;>
      simp [itemBlock, hv, List.countP_cons, isInvokeEv, isProgressEv]

theorem loopEvs_balance (n : Nat) :
    ∀ (vs : List VideoInput) (i : Nat) (k : Nat),
      ((loopEvs n i vs).take k).countP isInvokeEv ≤
        ((loopEvs n i vs).take k).countP isProgressEv
  | [], i, k => by simp [loopEvs]
  | v :: vs, i, k => by
    have hshape : loopEvs n i (v :: vs) =
        (Ev.progressUpd i n :: itemBlock v) ++ loopEvs n (i + 1) vs := by
      simp [loopEvs]
    rw [hshape]
    exact take_balance_append _ _ (itemBlock_balance v i n)
      (fun k2 => loopEvs_balance n vs (i + 1) k2) k

theorem chain_le_div_range (n : Nat) :
    List.Chain' (· ≤ ·)
      ((List.range n).map (fun k : Nat => (k : Rat) / (n : Rat))) := by
  rw [List.chain'_map]
  cases n with
  | zero => simp
  | succ n0 =>
    rw [List.chain'_range_succ]
    intro m _
    have hle : (m : Rat) ≤ ((m.succ : Nat) : Rat) := by
      exact_mod_cast Nat.le_succ m
    gcongr

/- The batch core with a resolvable binary and known rotation key: the
   progress sequence is exactly index / total for every index in order, and
   in every trace segment the number of invocations never exceeds the number
   of progress updates. -/
theorem batch_core_progress (p : String) (inputs : List VideoInput) (rot : String)
    (ang : Option Rat) (od : String) (fs1 : FS) (tr0 : List Ev)
    (hfo : (filter_option rot ang).isSome = true)
    (h0i : tr0.countP isInvokeEv = 0) (_h0p : tr0.countP isProgressEv = 0)
    (h0s : progressSeq tr0 = []) :
    progressSeq (batch_core (some p) inputs rot ang od fs1 tr0).trace =
      (List.range inputs.length).map
        (fun k : Nat => (k : Rat) / (inputs.length : Rat)) ∧
    ∀ k, ((batch_core (some p) inputs rot ang od fs1 tr0).trace.take k).countP isInvokeEv ≤
      ((batch_core (some p) inputs rot ang od fs1 tr0).trace.take k).countP isProgressEv := by
  obtain ⟨fs2, outs2, hrun⟩ := runItems_ok_shape p inputs.length rot ang hfo inputs 0
    (addTmpDir fs1) [] tr0
  obtain ⟨fs3, extra, hce1, hce2, hps, hmv⟩ := runMoves_trace_shape od ([] ++ outs2) fs2
    (tr0 ++ loopEvs inputs.length 0 inputs)
  have htr : (batch_core (some p) inputs rot ang od fs1 tr0).trace =
      ((tr0 ++ loopEvs inputs.length 0 inputs) ++ extra) ++ [.rmTmp] := by
    unfold batch_core
    simp only [hrun]
    rcases hmv with h | h <;> simp only [h]
  have hrm : ([Ev.rmTmp] : List Ev).countP isInvokeEv = 0 := by
    simp [List.countP_cons, isInvokeEv]
  constructor
  · rw [htr, progressSeq_append, progressSeq_append, progressSeq_append, h0s, hps,
      progressSeq_loopEvs inputs.length inputs 0]
    simp [progressSeq, List.range_eq_range']
  · intro k
    rw [htr]
    exact take_balance_append _ _
      (take_balance_append _ _
        (take_balance_append _ _ (balance_of_no_invoke h0i)
          (fun k2 => loopEvs_balance inputs.length inputs 0 k2))
        (balance_of_no_invoke hce1))
      (balance_of_no_invoke hrm) k

/-- C9: for every validated batch call with a resolvable transcoder binary
and a known rotation selection, the observed progress fractions are exactly
0/n, 1/n, ..., (n-1)/n in input order, the sequence is monotonically
non-decreasing, and in every prefix of the event trace the number of process
invocations never exceeds the number of progress updates: each item's
progress update is observable before that item's work begins. -/
theorem c9_progress :
    ∀ (p : String) (inputs : List VideoInput) (rot : String) (ang : Option Rat)
      (od : String) (fs : FS),
      inputs ≠ [] → ¬(rot = "custom" ∧ truthy ang = false) → od ≠ "" →
      (filter_option rot ang).isSome = true →
      (isdir fs od = true ∨ dirname od = "" ∨ isdir fs (dirname od) = true) →
      progressSeq (batch_rotate_videos (some p) inputs rot ang od fs).trace =
        (List.range inputs.length).map
          (fun k : Nat => (k : Rat) / (inputs.length : Rat)) ∧
      List.Chain' (· ≤ ·)
        (progressSeq (batch_rotate_videos (some p) inputs rot ang od fs).trace) ∧
      ∀ k, ((batch_rotate_videos (some p) inputs rot ang od fs).trace.take k).countP
          isInvokeEv ≤
        ((batch_rotate_videos (some p) inputs rot ang od fs).trace.take k).countP
          isProgressEv := by
  intro p inputs rot ang od fs h1 h2 h3 hfo hdir
  cases hio : isdir fs od with
  | true =>
    rw [batch_eq_core (some p) inputs rot ang od fs fs h1 h2 h3 (if_pos hio), hio]
    simp only [if_true]
    obtain ⟨hc1, hc3⟩ := batch_core_progress p inputs rot ang od fs ([] ++ [.mkTmp]) hfo
      (by simp [List.countP_cons, isInvokeEv]) (by simp [List.countP_cons, isProgressEv])
      (by simp [progressSeq])
    exact ⟨hc1, hc1 ▸ chain_le_div_range inputs.length, hc3⟩
  | false =>
    have hpar : dirname od = "" ∨ isdir fs (dirname od) = true := by
      rcases hdir with h | h | h
      · rw [hio] at h
        exact absurd h (by simp)
      · exact Or.inl h
      · exact Or.inr h
    have hok : (if isdir fs od = true then .ok fs else mkdirOne fs od :
        Except PyErr FS) = .ok ⟨insertF od fs.dirs, fs.files⟩ := by
      rw [if_neg (by simp [hio]), mkdirOne, if_pos hpar]
    rw [batch_eq_core (some p) inputs rot ang od fs _ h1 h2 h3 hok, hio]
    simp only [Bool.false_eq_true, if_false]
    obtain ⟨hc1, hc3⟩ := batch_core_progress p inputs rot ang od
      ⟨insertF od fs.dirs, fs.files⟩ ([.mkOutDir od] ++ [.mkTmp]) hfo
      (by simp [List.countP_cons, isInvokeEv]) (by simp [List.countP_cons, isProgressEv])
      (by simp [progressSeq])
    exact ⟨hc1, hc1 ▸ chain_le_div_range inputs.length, hc3⟩

theorem c9_progress_witness :
    progressSeq (batch_rotate_videos (some "f")
        [⟨"a.mp4", true, ""⟩, ⟨"b.mp4", false, "e"⟩] "90" none "out"
        ⟨["out"], []⟩).trace =
      (List.range 2).map (fun k : Nat => (k : Rat) / (2 : Rat)) ∧
    List.Chain' (· ≤ ·) (progressSeq (batch_rotate_videos (some "f")
        [⟨"a.mp4", true, ""⟩, ⟨"b.mp4", false, "e"⟩] "90" none "out"
        ⟨["out"], []⟩).trace) ∧
    ∀ k, ((batch_rotate_videos (some "f")
        [⟨"a.mp4", true, ""⟩, ⟨"b.mp4", false, "e"⟩] "90" none "out"
        ⟨["out"], []⟩).trace.take k).countP isInvokeEv ≤
      ((batch_rotate_videos (some "f")
        [⟨"a.mp4", true, ""⟩, ⟨"b.mp4", false, "e"⟩] "90" none "out"
        ⟨["out"], []⟩).trace.take k).countP isProgressEv :=
  c9_progress "f" [⟨"a.mp4", true, ""⟩, ⟨"b.mp4", false, "e"⟩] "90" none "out"
    ⟨["out"], []⟩ (by decide) (by decide) (by decide) rfl (by decide)
